import Mathlib

/-!
# Verification of the System-Metric-Tracker log lifecycle manager

Shallow embedding of the core of `src/logger.py` (class `LogManager`) and the
alert path of `src/monitor.py` (class `SystemMonitor`), together with proofs of
the behavioural claims about serialization, parsing, rotation, compression and
the multi-segment read path.

Modelling conventions:
* Text is modelled as `List Char`; a "line" is the logical content of one file
  line with the trailing newline (and any `strip()`-removed whitespace) absent,
  exactly what `_parse_log_file` hands to `_parse_log_line`.
* Percent values are modelled as rationals (`ℚ`); Python's `f"{x:.1f}"`
  formatting is modelled as rounding to the nearest tenth and printing one
  fractional digit, and Python's `float(s)` as exact decimal parsing.
* `datetime` values at second resolution are modelled by the `DateTime`
  structure; `strftime`/`strptime` with `"%Y-%m-%d %H:%M:%S"` are modelled on
  the canonical zero-padded 19-character form the tracker itself writes.
* The filesystem is a list of named files (`Fs`); `gzip` is treated as a
  transparent lossless codec, so a `.gz` file stores the same logical lines as
  its uncompressed form.  Fallible OS steps (compression) take an explicit
  success flag; an exception caught by the Python code corresponds to the
  operation returning its input state unchanged.
-/

namespace SysTracker

/-- One decimal digit as a character, `digitChar k` for `k ≤ 9`
(the argument is always reduced mod 10 by callers). -/
def digitChar (k : Nat) : Char :=
  if k = 0 then '0' else if k = 1 then '1' else if k = 2 then '2'
  else if k = 3 then '3' else if k = 4 then '4' else if k = 5 then '5'
  else if k = 6 then '6' else if k = 7 then '7' else if k = 8 then '8' else '9'

/-- Numeric value of a digit character. -/
def digitVal (c : Char) : Nat := c.toNat - 48

theorem isDigit_digitChar (k : Nat) : (digitChar k).isDigit = true := by
  unfold digitChar; split_ifs <;> decide

theorem digitVal_digitChar {k : Nat} (h : k < 10) : digitVal (digitChar k) = k := by
  unfold digitChar
  split_ifs with h0 h1 h2 h3 h4 h5 h6 h7 h8
  · subst h0; decide
  · subst h1; decide
  · subst h2; decide
  · subst h3; decide
  · subst h4; decide
  · subst h5; decide
  · subst h6; decide
  · subst h7; decide
  · subst h8; decide
  · have hk : k = 9 := by omega
    subst hk; decide

/-- Decimal digits of a natural number, most significant first
(the output of Python's `str`/`repr` on a nonnegative int, and of `%d`). -/
def natDigits (n : Nat) : List Char :=
  if h : n < 10 then [digitChar n]
  else natDigits (n / 10) ++ [digitChar (n % 10)]
  decreasing_by exact Nat.div_lt_self (by omega) (by omega)

/-- Value of a digit string, as read left to right. -/
def digitsVal (l : List Char) : Nat :=
  l.foldl (fun a c => a * 10 + digitVal c) 0

theorem digitsVal_append_digit (l : List Char) (c : Char) :
    digitsVal (l ++ [c]) = digitsVal l * 10 + digitVal c := by
  unfold digitsVal
  rw [List.foldl_append]
  rfl

theorem natDigits_ne_nil (n : Nat) : natDigits n ≠ [] := by
  unfold natDigits
  split
  · simp
  · simp

theorem natDigits_all_digits (n : Nat) : ∀ c ∈ natDigits n, c.isDigit = true := by
  induction n using Nat.strong_induction_on with
  | _ n ih =>
    unfold natDigits
    split
    · intro c hc
      simp at hc
      subst hc
      exact isDigit_digitChar n
    · intro c hc
      rw [List.mem_append] at hc
      rcases hc with hc | hc
      · exact ih (n / 10) (Nat.div_lt_self (by omega) (by omega)) c hc
      · simp at hc
        subst hc
        exact isDigit_digitChar (n % 10)

theorem digitsVal_natDigits (n : Nat) : digitsVal (natDigits n) = n := by
  induction n using Nat.strong_induction_on with
  | _ n ih =>
    unfold natDigits
    split
    · next h =>
      show digitsVal [digitChar n] = n
      unfold digitsVal
      simp [List.foldl, digitVal_digitChar h]
    · next h =>
      rw [digitsVal_append_digit,
        ih (n / 10) (Nat.div_lt_self (by omega) (by omega)),
        digitVal_digitChar (Nat.mod_lt _ (by omega))]
      omega

/-- Two-digit zero-padded field (`%02d` on values below 100). -/
def pad2 (n : Nat) : List Char := [digitChar (n / 10 % 10), digitChar (n % 10)]

/-- Four-digit zero-padded field (`%04d` on values below 10000). -/
def pad4 (n : Nat) : List Char := pad2 (n / 100) ++ pad2 (n % 100)

/-- Value of a two-character digit group. -/
def val2 (a b : Char) : Nat := digitVal a * 10 + digitVal b

theorem val2_pad2 {n : Nat} (h : n < 100) :
    val2 (digitChar (n / 10 % 10)) (digitChar (n % 10)) = n := by
  unfold val2
  rw [digitVal_digitChar (Nat.mod_lt _ (by omega)),
    digitVal_digitChar (Nat.mod_lt _ (by omega))]
  omega

/-- A calendar timestamp at second resolution, the model of a Python
`datetime` as produced by `strptime`/carried in parsed log entries. -/
structure DateTime where
  year : Nat
  month : Nat
  day : Nat
  hour : Nat
  minute : Nat
  second : Nat
  deriving DecidableEq, Repr

/-- Day count of a month, with the Gregorian leap rule
(`datetime`'s day-of-month validation). -/
def daysInMonth (year month : Nat) : Nat :=
  if month = 2 then
    if (year % 4 = 0 ∧ year % 100 ≠ 0) ∨ year % 400 = 0 then 29 else 28
  else if month = 4 ∨ month = 6 ∨ month = 9 ∨ month = 11 then 30
  else 31

/-- Field ranges accepted by `datetime` (and enforced by `strptime`):
the states a real `datetime` object can take, at second resolution. -/
def DateTime.Valid (t : DateTime) : Prop :=
  1 ≤ t.year ∧ t.year ≤ 9999 ∧ 1 ≤ t.month ∧ t.month ≤ 12 ∧
  1 ≤ t.day ∧ t.day ≤ daysInMonth t.year t.month ∧
  t.hour < 24 ∧ t.minute < 60 ∧ t.second < 60

instance (t : DateTime) : Decidable t.Valid := by
  unfold DateTime.Valid; infer_instance

/-- `strftime("%Y-%m-%d %H:%M:%S")`: the canonical zero-padded
19-character rendering of a timestamp. -/
def formatDateTime (t : DateTime) : List Char :=
  pad4 t.year ++ '-' :: pad2 t.month ++ '-' :: pad2 t.day ++
  ' ' :: pad2 t.hour ++ ':' :: pad2 t.minute ++ ':' :: pad2 t.second

/-- The timestamp assembled from the digit groups of a canonical
`"%Y-%m-%d %H:%M:%S"` string. -/
def dtFromFields (y1 y2 y3 y4 m1 m2 d1 d2 h1 h2 n1 n2 s1 s2 : Char) : DateTime :=
  { year := val2 y1 y2 * 100 + val2 y3 y4
    month := val2 m1 m2
    day := val2 d1 d2
    hour := val2 h1 h2
    minute := val2 n1 n2
    second := val2 s1 s2 }

/-- `strptime(s, "%Y-%m-%d %H:%M:%S")`, modelled on the canonical
zero-padded form that `formatDateTime` (and the tracker itself) writes:
the separators must sit at their fixed positions, every other character
must be a digit, and the fields must satisfy `datetime`'s range checks.
Any other string is a parse failure (`None`). -/
def parseDateTime (l : List Char) : Option DateTime :=
  match l with
  | [y1, y2, y3, y4, '-', m1, m2, '-', d1, d2, ' ',
     h1, h2, ':', n1, n2, ':', s1, s2] =>
    if ([y1, y2, y3, y4, m1, m2, d1, d2, h1, h2, n1, n2, s1, s2].all
          fun c => c.isDigit) then
      if (dtFromFields y1 y2 y3 y4 m1 m2 d1 d2 h1 h2 n1 n2 s1 s2).Valid then
        some (dtFromFields y1 y2 y3 y4 m1 m2 d1 d2 h1 h2 n1 n2 s1 s2)
      else none
    else none
  | _ => none

theorem parseDateTime_formatDateTime {t : DateTime} (h : t.Valid) :
    parseDateTime (formatDateTime t) = some t := by
  obtain ⟨h1, h2, h3, h4, h5, h6, h7, h8, h9⟩ := h
  have hy : t.year < 10000 := by omega
  simp only [formatDateTime, pad4, pad2, List.cons_append, List.append_assoc,
    List.nil_append]
  simp only [parseDateTime, dtFromFields, List.all_cons, List.all_nil,
    isDigit_digitChar, Bool.and_self, Bool.and_true, if_true]
  have e1 : val2 (digitChar (t.year / 100 / 10 % 10)) (digitChar (t.year / 100 % 10))
      * 100 + val2 (digitChar (t.year % 100 / 10 % 10)) (digitChar (t.year % 100 % 10))
      = t.year := by
    rw [val2_pad2 (by omega), val2_pad2 (by omega)]
    omega
  have e2 := val2_pad2 (n := t.month) (by omega)
  have hdm : daysInMonth t.year t.month ≤ 31 := by
    unfold daysInMonth; split_ifs <;> omega
  have e3 := val2_pad2 (n := t.day) (by omega)
  have e4 := val2_pad2 (n := t.hour) (by omega)
  have e5 := val2_pad2 (n := t.minute) (by omega)
  have e6 := val2_pad2 (n := t.second) (by omega)
  rw [e1, e2, e3, e4, e5, e6]
  have hv : DateTime.Valid ⟨t.year, t.month, t.day, t.hour, t.minute, t.second⟩ := by
    exact ⟨h1, h2, h3, h4, h5, h6, h7, h8, h9⟩
  rw [if_pos hv]

/-! ## Float formatting and parsing

`f"{x:.1f}"` rounds to the nearest tenth and prints exactly one fractional
digit; `float(s)` parses a decimal string exactly.  Percent values are
rationals, so "within 0.1" is an exact statement. -/

/-- Digits of the unsigned fixed-point body `<int>.<frac>` of `f"{x:.1f}"`,
for `m` = the rounded value in tenths. -/
def fmt1Body (m : Nat) : List Char :=
  natDigits (m / 10) ++ '.' :: [digitChar (m % 10)]

/-- Python's `f"{x:.1f}"`: round to the nearest tenth, print sign,
integer part and one fractional digit. -/
def fmt1 (x : ℚ) : List Char :=
  if round (10 * x) < 0 then '-' :: fmt1Body (round (10 * x)).natAbs
  else fmt1Body (round (10 * x)).natAbs

/-- The numeric value `f"{x:.1f}"` denotes. -/
def fmt1Val (x : ℚ) : ℚ := (round (10 * x) : ℚ) / 10

/-- Unsigned part of Python's `float()` on a decimal string:
digits, optionally followed by `.` and more digits. -/
def parseUFloat (l : List Char) : Option ℚ :=
  let I := l.takeWhile (fun c => c.isDigit)
  match l.dropWhile (fun c => c.isDigit) with
  | [] => if I.isEmpty then none else some (digitsVal I)
  | c :: F =>
    if c = '.' && F.all (fun c => c.isDigit) && !(I.isEmpty && F.isEmpty) then
      some ((digitsVal I : ℚ) + (digitsVal F : ℚ) / (10 ^ F.length))
    else none

/-- Python's `float()` on a decimal string, with an optional leading minus. -/
def parseFloat (l : List Char) : Option ℚ :=
  match l with
  | [] => none
  | c :: rest => if c = '-' then (parseUFloat rest).map (fun q => -q) else parseUFloat l

theorem takeWhile_digits_append (A bs : List Char)
    (hA : ∀ c ∈ A, c.isDigit = true) :
    (A ++ '.' :: bs).takeWhile (fun c => c.isDigit) = A ∧
    (A ++ '.' :: bs).dropWhile (fun c => c.isDigit) = '.' :: bs := by
  induction A with
  | nil => simp [List.takeWhile_cons, List.dropWhile_cons]
  | cons c A ih =>
    have hc : c.isDigit = true := hA c (by simp)
    have := ih (fun d hd => hA d (by simp [hd]))
    simp [List.takeWhile_cons, List.dropWhile_cons, hc, this.1, this.2]

theorem parseUFloat_canonical (A : List Char) (d : Char)
    (hA : ∀ c ∈ A, c.isDigit = true) (hAne : A ≠ []) (hd : d.isDigit = true) :
    parseUFloat (A ++ '.' :: [d]) =
      some ((digitsVal A : ℚ) + (digitVal d : ℚ) / 10) := by
  obtain ⟨ht, hdr⟩ := takeWhile_digits_append A [d] hA
  unfold parseUFloat
  rw [ht, hdr]
  simp only [hd, List.all_cons, List.all_nil, Bool.and_true, List.isEmpty_cons,
    Bool.and_false, Bool.not_false, Bool.and_true]
  rw [if_pos]
  · congr 1
    simp [digitsVal, digitVal]
  · simp [List.isEmpty_eq_true, hAne]

theorem parseUFloat_fmt1Body (m : Nat) :
    parseUFloat (fmt1Body m) = some ((m : ℚ) / 10) := by
  unfold fmt1Body
  rw [parseUFloat_canonical _ _ (natDigits_all_digits _) (natDigits_ne_nil _)
    (isDigit_digitChar _)]
  congr 1
  rw [digitsVal_natDigits, digitVal_digitChar (Nat.mod_lt _ (by omega))]
  have key : m / 10 * 10 + m % 10 = m := by omega
  have keyQ : ((m / 10 : Nat) : ℚ) * 10 + ((m % 10 : Nat) : ℚ) = (m : ℚ) := by
    exact_mod_cast key
  linarith

theorem fmt1Body_head_digit (m : Nat) :
    ∃ c cs, fmt1Body m = c :: cs ∧ c.isDigit = true := by
  unfold fmt1Body
  rcases hA : natDigits (m / 10) with _ | ⟨c, cs⟩
  · exact absurd hA (natDigits_ne_nil _)
  · exact ⟨c, cs ++ '.' :: [digitChar (m % 10)], by simp,
      natDigits_all_digits _ c (by rw [hA]; simp)⟩

theorem parseFloat_fmt1 (x : ℚ) : parseFloat (fmt1 x) = some (fmt1Val x) := by
  unfold fmt1 fmt1Val
  by_cases hneg : round (10 * x) < 0
  · rw [if_pos hneg]
    simp only [parseFloat]
    rw [if_pos trivial, parseUFloat_fmt1Body]
    simp only [Option.map_some']
    congr 1
    have : ((round (10 * x)).natAbs : ℚ) = -((round (10 * x) : ℤ) : ℚ) := by
      rw [Int.cast_natAbs, Int.cast_abs]
      exact abs_of_neg (by exact_mod_cast hneg)
    rw [this]
    ring
  · rw [if_neg hneg]
    obtain ⟨c, cs, hcc, hcdig⟩ := fmt1Body_head_digit (round (10 * x)).natAbs
    rw [hcc]
    simp only [parseFloat]
    rw [if_neg (by intro h; subst h; simp [Char.isDigit] at hcdig), ← hcc,
      parseUFloat_fmt1Body]
    congr 1
    have : ((round (10 * x)).natAbs : ℚ) = ((round (10 * x) : ℤ) : ℚ) := by
      rw [Int.cast_natAbs, Int.cast_abs]
      exact abs_of_nonneg
        (show (0:ℚ) ≤ ((round (10 * x) : ℤ) : ℚ) by exact_mod_cast not_lt.mp hneg)
    rw [this]

theorem abs_fmt1Val_sub (x : ℚ) : |fmt1Val x - x| ≤ 1 / 10 := by
  unfold fmt1Val
  have h := abs_sub_round (α := ℚ) (10 * x)
  have e : (round (10 * x) : ℚ) / 10 - x = -((10 * x - (round (10 * x) : ℚ)) / 10) := by
    ring
  rw [e, abs_neg, abs_div, abs_of_pos (show (0:ℚ) < 10 by norm_num)]
  linarith

theorem fmt1Body_chars (m : Nat) :
    ∀ c ∈ fmt1Body m, c.isDigit = true ∨ c = '.' := by
  unfold fmt1Body
  intro c hc
  simp at hc
  rcases hc with hc | hc | hc
  · exact Or.inl (natDigits_all_digits _ c hc)
  · right; exact hc
  · subst hc; exact Or.inl (isDigit_digitChar _)

/-- Every character `f"{x:.1f}"` can emit is a digit, `.` or `-`. -/
theorem fmt1_chars (x : ℚ) :
    ∀ c ∈ fmt1 x, c.isDigit = true ∨ c = '.' ∨ c = '-' := by
  unfold fmt1
  intro c hc
  split at hc
  · rcases List.mem_cons.mp hc with hc | hc
    · right; right; exact hc
    · rcases fmt1Body_chars _ c hc with h | h
      · exact Or.inl h
      · right; left; exact h
  · rcases fmt1Body_chars _ c hc with h | h
    · exact Or.inl h
    · right; left; exact h

/-! ## Splitting on a literal pattern

Python's `str.split(pat)` and `str.replace(pat, '')` both scan left to right
for non-overlapping occurrences of `pat`; `replace(pat, '')` is the
concatenation of the `split(pat)` chunks.  The pattern is passed as head and
tail so it is structurally nonempty. -/

/-- `l.split(p :: ps)`, scanning left to right, non-overlapping. -/
def splitOnP (p : Char) (ps : List Char) : List Char → List (List Char)
  | [] => [[]]
  | c :: cs =>
    if (c :: cs).take (ps.length + 1) = p :: ps then
      [] :: splitOnP p ps (cs.drop ps.length)
    else
      match splitOnP p ps cs with
      | [] => [[c]]
      | h :: t => (c :: h) :: t
  termination_by l => l.length
  decreasing_by
  · simp only [List.length_cons, List.length_drop]; omega
  · simp only [List.length_cons]; omega

/-- `l.replace(p :: ps, '')`. -/
def replaceEmpty (p : Char) (ps : List Char) (l : List Char) : List Char :=
  (splitOnP p ps l).flatten

theorem splitOnP_nil (p : Char) (ps : List Char) : splitOnP p ps [] = [[]] := by
  rw [splitOnP]

theorem splitOnP_cons (p : Char) (ps : List Char) (c : Char) (cs : List Char) :
    splitOnP p ps (c :: cs) =
      if (c :: cs).take (ps.length + 1) = p :: ps then
        [] :: splitOnP p ps (cs.drop ps.length)
      else
        match splitOnP p ps cs with
        | [] => [[c]]
        | h :: t => (c :: h) :: t := by
  rw [splitOnP]

theorem splitOnP_ne_nil (p : Char) (ps l : List Char) : splitOnP p ps l ≠ [] := by
  cases l with
  | nil => rw [splitOnP_nil]; simp
  | cons c cs =>
    rw [splitOnP_cons]
    split
    · simp
    · cases splitOnP p ps cs <;> simp

/-- If the head character of the pattern never occurs, nothing splits. -/
theorem splitOnP_of_not_mem {p : Char} (ps : List Char) {l : List Char}
    (h : p ∉ l) : splitOnP p ps l = [l] := by
  induction l with
  | nil => exact splitOnP_nil p ps
  | cons c cs ih =>
    rw [splitOnP_cons, if_neg]
    · rw [ih (fun hm => h (List.mem_cons_of_mem c hm))]
    · intro he
      have : c = p := by
        have := congrArg (fun l => l.head?) he
        simpa [List.take_succ_cons] using this
      exact h (this ▸ List.mem_cons_self c cs)

/-- Peeling a pattern occurrence sitting at the front. -/
theorem splitOnP_peel (p : Char) (ps rest : List Char) :
    splitOnP p ps ((p :: ps) ++ rest) = [] :: splitOnP p ps rest := by
  rw [List.cons_append, splitOnP_cons, List.take_succ_cons, List.take_left,
    if_pos rfl, List.drop_left]

/-- `line.split(' | ')`. -/
def splitSep (l : List Char) : List (List Char) := splitOnP ' ' ['|', ' '] l

theorem splitSep_no_bar {l : List Char} (h : '|' ∉ l) : splitSep l = [l] := by
  unfold splitSep
  induction l with
  | nil => exact splitOnP_nil _ _
  | cons c cs ih =>
    rw [splitOnP_cons, if_neg]
    · rw [ih (fun hm => h (List.mem_cons_of_mem _ hm))]
    · intro he
      simp only [List.length_cons, List.length_nil, List.take_succ_cons] at he
      have h2 : cs.take 2 = ['|', ' '] := (List.cons.injEq _ _ _ _ ▸ he).2
      have : '|' ∈ cs.take 2 := by rw [h2]; simp
      exact h (List.mem_cons_of_mem _ (List.take_subset _ _ this))

theorem splitSep_append {a : List Char} (b : List Char) (h : '|' ∉ a) :
    splitSep (a ++ ' ' :: '|' :: ' ' :: b) = a :: splitSep b := by
  unfold splitSep
  induction a with
  | nil => simpa using splitOnP_peel ' ' ['|', ' '] b
  | cons c a ih =>
    rw [List.cons_append, splitOnP_cons, if_neg,
      ih (fun hm => h (List.mem_cons_of_mem _ hm))]
    intro he
    simp only [List.length_cons, List.length_nil, List.take_succ_cons] at he
    have h2 : (a ++ ' ' :: '|' :: ' ' :: b).take 2 = ['|', ' '] :=
      (List.cons.injEq _ _ _ _ ▸ he).2
    cases a with
    | nil => simp at h2
    | cons y a' =>
      rw [List.cons_append, List.take_succ_cons] at h2
      have : y = '|' := (List.cons.injEq _ _ _ _ ▸ h2).1
      exact h (List.mem_cons_of_mem _ (this ▸ List.mem_cons_self y a'))

/-- Splitting on a single character: an occurrence after a clean prefix. -/
theorem splitChar_append {q : Char} {a : List Char} (b : List Char) (h : q ∉ a) :
    splitOnP q [] (a ++ q :: b) = a :: splitOnP q [] b := by
  induction a with
  | nil => simpa using splitOnP_peel q [] b
  | cons c a ih =>
    rw [List.cons_append, splitOnP_cons, if_neg,
      ih (fun hm => h (List.mem_cons_of_mem _ hm))]
    intro he
    simp only [List.length_nil, List.length_cons, List.take_succ_cons] at he
    exact h ((List.cons.injEq _ _ _ _ ▸ he).1 ▸ List.mem_cons_self c a)

/-- `replace(lbl, '')` then `replace('%', '')` on a canonical labelled field
`lbl ++ value ++ "%"` recovers the value, provided the value contains neither
the label's head character nor a percent sign. -/
theorem clean_labelled_field (p : Char) (ps : List Char) (f : List Char)
    (hp : p ∉ f) (hpct1 : p ≠ '%') (hpct : '%' ∉ f) :
    replaceEmpty '%' [] (replaceEmpty p ps ((p :: ps) ++ (f ++ ['%']))) = f := by
  have h1 : p ∉ f ++ ['%'] := by
    intro hm
    rcases List.mem_append.mp hm with hm | hm
    · exact hp hm
    · simp at hm
      exact hpct1 hm
  have hinner : replaceEmpty p ps ((p :: ps) ++ (f ++ ['%'])) = f ++ ['%'] := by
    unfold replaceEmpty
    rw [splitOnP_peel, splitOnP_of_not_mem ps h1]
    simp
  rw [hinner]
  unfold replaceEmpty
  have he : f ++ ['%'] = f ++ '%' :: [] := rfl
  rw [he, splitChar_append _ hpct, splitOnP_nil]
  simp

/-! ## The metrics line format and `_parse_log_line` -/

/-- The dict `_parse_log_line` returns on success. -/
structure Entry where
  timestamp : DateTime
  cpu_percent : ℚ
  memory_percent : ℚ
  disk_percent : ℚ
  deriving DecidableEq, Repr

/-- CPU field of a metrics line, `"CPU: " + f"{x:.1f}" + "%"`. -/
def cpuField (x : ℚ) : List Char := ['C', 'P', 'U', ':', ' '] ++ (fmt1 x ++ ['%'])

/-- RAM field of a metrics line. -/
def ramField (x : ℚ) : List Char := ['R', 'A', 'M', ':', ' '] ++ (fmt1 x ++ ['%'])

/-- Disk field of a metrics line. -/
def diskField (x : ℚ) : List Char := ['D', 'i', 's', 'k', ':', ' '] ++ (fmt1 x ++ ['%'])

/-- The line `log_metrics` writes (without the trailing newline), for a
timestamp string `ts` and the three percent values:
`f"{ts} | CPU: {cpu:.1f}% | RAM: {mem:.1f}% | Disk: {disk:.1f}%"`. -/
def metricsLine (ts : List Char) (cpu ram disk : ℚ) : List Char :=
  ts ++ ' ' :: '|' :: ' ' ::
    (cpuField cpu ++ ' ' :: '|' :: ' ' ::
      (ramField ram ++ ' ' :: '|' :: ' ' :: diskField disk))

/-- `LogManager._parse_log_line`: split on `" | "`; a line that does not give
exactly 4 fields is rejected (the code's `len(parts) != 4` guard is the
catch-all branch here); strip the labels and percent signs via `replace`,
parse the timestamp with `strptime` and the values with `float`; any parse
failure yields `None` (the code's blanket `except`). -/
def parse_log_line (line : List Char) : Option Entry :=
  match splitSep line with
  | [p0, p1, p2, p3] => do
    let ts ← parseDateTime p0
    let cpu ← parseFloat (replaceEmpty '%' [] (replaceEmpty 'C' ['P', 'U', ':', ' '] p1))
    let ram ← parseFloat (replaceEmpty '%' [] (replaceEmpty 'R' ['A', 'M', ':', ' '] p2))
    let disk ← parseFloat (replaceEmpty '%' [] (replaceEmpty 'D' ['i', 's', 'k', ':', ' '] p3))
    some ⟨ts, cpu, ram, disk⟩
  | _ => none

theorem fmt1_not_mem (x : ℚ) {c : Char} (h1 : c.isDigit = false) (h2 : c ≠ '.')
    (h3 : c ≠ '-') : c ∉ fmt1 x := by
  intro hm
  rcases fmt1_chars x c hm with h | h | h
  · rw [h1] at h; exact Bool.false_ne_true h
  · exact h2 h
  · exact h3 h

theorem pad2_chars (n : Nat) : ∀ c ∈ pad2 n, c.isDigit = true := by
  intro c hc
  unfold pad2 at hc
  simp at hc
  rcases hc with hc | hc <;> (subst hc; exact isDigit_digitChar _)

theorem pad4_chars (n : Nat) : ∀ c ∈ pad4 n, c.isDigit = true := by
  intro c hc
  unfold pad4 at hc
  rcases List.mem_append.mp hc with hc | hc <;> exact pad2_chars _ c hc

theorem formatDateTime_chars (t : DateTime) :
    ∀ c ∈ formatDateTime t, c.isDigit = true ∨ c = '-' ∨ c = ' ' ∨ c = ':' := by
  intro c hc
  unfold formatDateTime at hc
  simp only [List.mem_append, List.mem_cons] at hc
  rcases hc with ((((hc | hc | hc) | hc | hc) | hc | hc) | hc | hc) | hc | hc <;>
    first
      | exact Or.inl (pad4_chars _ c hc)
      | exact Or.inl (pad2_chars _ c hc)
      | (subst hc; simp)

theorem bar_not_mem_formatDateTime (t : DateTime) : '|' ∉ formatDateTime t := by
  intro hm
  rcases formatDateTime_chars t '|' hm with h | h | h | h <;> simp_all

theorem bar_not_mem_field {lbl : List Char} {x : ℚ}
    (hlbl : '|' ∉ lbl) : '|' ∉ lbl ++ (fmt1 x ++ ['%']) := by
  intro hm
  rcases List.mem_append.mp hm with hm | hm
  · exact hlbl hm
  rcases List.mem_append.mp hm with hm | hm
  · exact fmt1_not_mem x (by decide) (by decide) (by decide) hm
  · simp at hm

theorem cpuField_no_bar (x : ℚ) : '|' ∉ cpuField x := by
  unfold cpuField; exact bar_not_mem_field (by decide)

theorem ramField_no_bar (x : ℚ) : '|' ∉ ramField x := by
  unfold ramField; exact bar_not_mem_field (by decide)

theorem diskField_no_bar (x : ℚ) : '|' ∉ diskField x := by
  unfold diskField; exact bar_not_mem_field (by decide)

/-- Splitting a canonical metrics line recovers exactly its four fields. -/
theorem splitSep_metricsLine (ts : List Char) (cpu ram disk : ℚ)
    (hts : '|' ∉ ts) :
    splitSep (metricsLine ts cpu ram disk) =
      [ts, cpuField cpu, ramField ram, diskField disk] := by
  unfold metricsLine
  rw [splitSep_append _ hts,
    splitSep_append _ (cpuField_no_bar cpu),
    splitSep_append _ (ramField_no_bar ram),
    splitSep_no_bar (diskField_no_bar disk)]

theorem clean_cpuField (x : ℚ) :
    replaceEmpty '%' [] (replaceEmpty 'C' ['P', 'U', ':', ' '] (cpuField x)) = fmt1 x := by
  unfold cpuField
  exact clean_labelled_field _ _ _
    (fmt1_not_mem _ (by decide) (by decide) (by decide)) (by decide)
    (fmt1_not_mem _ (by decide) (by decide) (by decide))

theorem clean_ramField (x : ℚ) :
    replaceEmpty '%' [] (replaceEmpty 'R' ['A', 'M', ':', ' '] (ramField x)) = fmt1 x := by
  unfold ramField
  exact clean_labelled_field _ _ _
    (fmt1_not_mem _ (by decide) (by decide) (by decide)) (by decide)
    (fmt1_not_mem _ (by decide) (by decide) (by decide))

theorem clean_diskField (x : ℚ) :
    replaceEmpty '%' [] (replaceEmpty 'D' ['i', 's', 'k', ':', ' '] (diskField x)) = fmt1 x := by
  unfold diskField
  exact clean_labelled_field _ _ _
    (fmt1_not_mem _ (by decide) (by decide) (by decide)) (by decide)
    (fmt1_not_mem _ (by decide) (by decide) (by decide))

/-- Parsing a canonically serialized metrics line yields the record with the
original timestamp and the rounded-to-tenths percent values. -/
theorem parse_metricsLine {t : DateTime} (cpu ram disk : ℚ) (hv : t.Valid) :
    parse_log_line (metricsLine (formatDateTime t) cpu ram disk) =
      some ⟨t, fmt1Val cpu, fmt1Val ram, fmt1Val disk⟩ := by
  unfold parse_log_line
  rw [splitSep_metricsLine _ _ _ _ (bar_not_mem_formatDateTime t)]
  show (do
    let ts ← parseDateTime (formatDateTime t)
    let cpu ← parseFloat (replaceEmpty '%' [] (replaceEmpty 'C' ['P', 'U', ':', ' ']
      (cpuField cpu)))
    let ram ← parseFloat (replaceEmpty '%' [] (replaceEmpty 'R' ['A', 'M', ':', ' ']
      (ramField ram)))
    let disk ← parseFloat (replaceEmpty '%' [] (replaceEmpty 'D' ['i', 's', 'k', ':', ' ']
      (diskField disk)))
    some (⟨ts, cpu, ram, disk⟩ : Entry)) = _
  rw [parseDateTime_formatDateTime hv, clean_cpuField, clean_ramField,
    clean_diskField, parseFloat_fmt1, parseFloat_fmt1, parseFloat_fmt1]
  rfl

/-- C5: for every metrics record whose timestamp is at second resolution,
serializing it with `log_metrics`'s line format and parsing that line back
with `_parse_log_line` yields a record with the same timestamp and with each
of the cpu, memory and disk percent fields within 0.1 of the original
value. -/
theorem C5_serialize_parse_roundtrip (t : DateTime) (cpu ram disk : ℚ)
    (hv : t.Valid) :
    ∃ e : Entry,
      parse_log_line (metricsLine (formatDateTime t) cpu ram disk) = some e ∧
      e.timestamp = t ∧
      |e.cpu_percent - cpu| ≤ 1 / 10 ∧
      |e.memory_percent - ram| ≤ 1 / 10 ∧
      |e.disk_percent - disk| ≤ 1 / 10 :=
  ⟨⟨t, fmt1Val cpu, fmt1Val ram, fmt1Val disk⟩, parse_metricsLine cpu ram disk hv,
    rfl, abs_fmt1Val_sub cpu, abs_fmt1Val_sub ram, abs_fmt1Val_sub disk⟩

/-- Closed witness for C5 at the record (2023-12-01 10:30:00,
cpu = 45.2, ram = 67.8, disk = 23.1). -/
theorem C5_serialize_parse_roundtrip_witness :
    (⟨2023, 12, 1, 10, 30, 0⟩ : DateTime).Valid ∧
    ∃ e : Entry,
      parse_log_line (metricsLine (formatDateTime ⟨2023, 12, 1, 10, 30, 0⟩)
        (226/5) (339/5) (231/10)) = some e ∧
      e.timestamp = ⟨2023, 12, 1, 10, 30, 0⟩ ∧
      |e.cpu_percent - 226/5| ≤ 1 / 10 ∧
      |e.memory_percent - 339/5| ≤ 1 / 10 ∧
      |e.disk_percent - 231/10| ≤ 1 / 10 :=
  ⟨by decide, C5_serialize_parse_roundtrip ⟨2023, 12, 1, 10, 30, 0⟩
    (226/5) (339/5) (231/10) (by decide)⟩

/-! ## Filesystem model

The working directory is a list of files.  A file stores its name, its
logical lines (each line as handed to `_parse_log_line`, i.e. without the
trailing newline) and its POSIX modification time in whole seconds.  `gzip`
is a transparent lossless codec: a `.gz` file stores the same logical lines
as its uncompressed form. -/

/-- A file in the working directory. -/
structure FsFile where
  name : List Char
  lines : List (List Char)
  mtime : Int
  deriving DecidableEq, Repr

/-- The working directory. -/
abbrev Fs := List FsFile

/-- `os.path.getsize`: every stored line was written as `line + "\n"` and the
log content is ASCII, so the byte size is the summed line lengths plus one
newline byte per line. -/
def FsFile.size (f : FsFile) : Nat := (f.lines.map (fun l => l.length + 1)).sum

/-- Opening a file by name (the first directory entry carrying it). -/
def Fs.lookup (fs : Fs) (n : List Char) : Option FsFile :=
  fs.find? (fun f => f.name == n)

/-- `os.remove` / implicit removal. -/
def Fs.remove (fs : Fs) (n : List Char) : Fs :=
  fs.filter (fun f => !(f.name == n))

/-- `open(n, 'a')` followed by one `write`+`flush`: append one line,
creating the file when absent; the mtime becomes the current time. -/
def Fs.appendLine (fs : Fs) (n : List Char) (line : List Char) (now : Int) : Fs :=
  match fs.lookup n with
  | some _ =>
    fs.map fun g =>
      if g.name == n then { g with lines := g.lines ++ [line], mtime := now } else g
  | none => fs ++ [(⟨n, [line], now⟩ : FsFile)]

/-- `shutil.move src dst` on one filesystem: `os.rename`, which silently
replaces an existing `dst` and preserves the mtime; missing `src` is an
error the callers guard against (modelled as a no-op). -/
def Fs.move (fs : Fs) (src dst : List Char) : Fs :=
  match fs.lookup src with
  | none => fs
  | some f => ((fs.remove src).remove dst) ++ [(⟨dst, f.lines, f.mtime⟩ : FsFile)]

/-- Names of the two active segments. -/
def syslogName : List Char := "syslog.txt".toList

/-- Active alerts segment name. -/
def alertsName : List Char := "alerts.txt".toList

/-- `LogManager._compress_file(filename)`: `gzip.open(filename + ".gz",
'wb')` truncates and rewrites any existing `.gz` of that name, the content
is copied, and only then is the uncompressed file removed.  `ok = false`
models a compression failure: the exception is caught and the uncompressed
file is left in place (the possible partial `.gz` is not modelled; no claim
here concerns it). -/
def compress_file (fs : Fs) (n : List Char) (ok : Bool) (now : Int) : Fs :=
  match fs.lookup n with
  | none => fs
  | some f =>
    if ok then
      ((fs.remove (n ++ ".gz".toList)) ++ [(⟨n ++ ".gz".toList, f.lines, now⟩ : FsFile)]).remove n
    else fs

/-- `LogManager.rotate_logs()`: with `ts = now.strftime("%Y%m%d_%H%M%S")`,
move the active metrics segment (when present) to
`syslog_backup_<ts>.txt` and compress it, then do the same for the active
alerts segment with `alerts_backup_<ts>.txt`.  `okM`/`okA` are the success
flags of the two compressions. -/
def rotate_logs (fs : Fs) (ts : List Char) (now : Int) (okM okA : Bool) : Fs :=
  let fs1 :=
    if (fs.lookup syslogName).isSome then
      compress_file (fs.move syslogName ("syslog_backup_".toList ++ ts ++ ".txt".toList))
        ("syslog_backup_".toList ++ ts ++ ".txt".toList) okM now
    else fs
  if (fs1.lookup alertsName).isSome then
    compress_file (fs1.move alertsName ("alerts_backup_".toList ++ ts ++ ".txt".toList))
      ("alerts_backup_".toList ++ ts ++ ".txt".toList) okA now
  else fs1

/-- `LogManager._needs_rotation()`: `False` when the metrics segment is
absent; otherwise `True` iff its size strictly exceeds `max_size` or
`(now - mtime).days >= max_age`, where `timedelta.days` is floor division
of the elapsed seconds by 86400. -/
def needs_rotation (fs : Fs) (now : Int) (maxSize : Nat) (maxAge : Int) : Bool :=
  match fs.lookup syslogName with
  | none => false
  | some f =>
    if f.size > maxSize then true
    else if (now - f.mtime).fdiv 86400 ≥ maxAge then true
    else false

/-- `LogManager.check_rotation()`: rotate exactly when `_needs_rotation`. -/
def check_rotation (fs : Fs) (now : Int) (maxSize : Nat) (maxAge : Int)
    (ts : List Char) (okM okA : Bool) : Fs :=
  if needs_rotation fs now maxSize maxAge then rotate_logs fs ts now okM okA else fs

/-! ## Write path: `log_metrics`, `log_alert`, `check_alerts`

The metrics argument is the dict produced by
`SystemMonitor.get_system_metrics()` (or `None` on sampling failure).  A
dict may be missing keys and a value may be a non-number; formatting a
non-number with `:.1f` raises, and a missing key raises `KeyError`.  Both
are caught by the `try`/`except` blocks. -/

/-- A Python value a metrics dict can carry. -/
inductive PyVal where
  | num (q : ℚ)
  | str (s : List Char)
  deriving DecidableEq, Repr

/-- `f"{v:.1f}"` succeeds exactly on numbers. -/
def PyVal.asNum : PyVal → Option ℚ
  | num q => some q
  | str _ => none

/-- The metrics dict: `None` fields model missing keys. -/
structure MetricsDict where
  timestamp : Option (List Char)
  cpu_percent : Option PyVal
  memory_percent : Option PyVal
  disk_percent : Option PyVal
  deriving DecidableEq, Repr

/-- The canonical dict `get_system_metrics` builds for a record with
timestamp `t` (rendered with `strftime`) and numeric percent values. -/
def mkMetricsDict (t : DateTime) (cpu ram disk : ℚ) : MetricsDict :=
  ⟨some (formatDateTime t), some (PyVal.num cpu), some (PyVal.num ram),
    some (PyVal.num disk)⟩

/-- The `log_entry` f-string of `log_metrics`: fails (raising, before any
file is opened) iff a required key is missing or a percent value is not a
number. -/
def buildLogEntry (d : MetricsDict) : Option (List Char) := do
  let ts ← d.timestamp
  let cv ← d.cpu_percent
  let c ← cv.asNum
  let rv ← d.memory_percent
  let r ← rv.asNum
  let dv ← d.disk_percent
  let di ← dv.asNum
  some (metricsLine ts c r di)

/-- `LogManager.log_metrics(metrics)`: `None`/falsy input returns at once;
otherwise the line is fully constructed first, and only if that succeeds is
the active metrics segment opened and appended; a serialization error is
caught leaving every file untouched. -/
def log_metrics (m : Option MetricsDict) (fs : Fs) (now : Int) : Fs :=
  match m with
  | none => fs
  | some d =>
    match buildLogEntry d with
    | none => fs
    | some line => fs.appendLine syslogName line now

/-- `LogManager.log_alert(alert_message)`: prefix the message with the
current wall-clock time and append to the active alerts segment. -/
def log_alert (fs : Fs) (msg : List Char) (nowDT : DateTime) (now : Int) : Fs :=
  fs.appendLine alertsName (formatDateTime nowDT ++ ' ' :: '|' :: ' ' :: msg) now

/-- The f-string of `SystemMonitor.check_alerts`:
`f"HIGH CPU USAGE ALERT: {cpu:.1f}% at {timestamp}"`. -/
def alertMessage (cpu : ℚ) (ts : List Char) : List Char :=
  "HIGH CPU USAGE ALERT: ".toList ++ fmt1 cpu ++ "% at ".toList ++ ts

/-- `SystemMonitor.check_alerts(metrics)`: `None` input is a no-op tick;
otherwise an alert line is appended exactly when `cpu_percent` strictly
exceeds the threshold; a missing/non-numeric `cpu_percent` or a missing
`timestamp` raises inside the `try` block (before `log_alert` runs) and is
caught, appending nothing. -/
def check_alerts (m : Option MetricsDict) (threshold : ℚ) (fs : Fs)
    (nowDT : DateTime) (now : Int) : Fs :=
  match m with
  | none => fs
  | some d =>
    match d.cpu_percent with
    | some (PyVal.num c) =>
      if threshold < c then
        match d.timestamp with
        | some ts => log_alert fs (alertMessage c ts) nowDT now
        | none => fs
      else fs
    | _ => fs

/-! ## Read path: `read_log_data` and helpers -/

/-- Mixed-radix linearization of a timestamp; on field ranges a real
`datetime` can take it is exactly the chronological order `datetime`
comparison uses. -/
def dtKey (t : DateTime) : Nat :=
  ((((t.year * 13 + t.month) * 32 + t.day) * 24 + t.hour) * 60 + t.minute) * 60
    + t.second

/-- Chronological order on timestamps (what Python's `datetime <=` is). -/
def DateTime.chronLE (a b : DateTime) : Prop :=
  a.year < b.year ∨ (a.year = b.year ∧
    (a.month < b.month ∨ (a.month = b.month ∧
      (a.day < b.day ∨ (a.day = b.day ∧
        (a.hour < b.hour ∨ (a.hour = b.hour ∧
          (a.minute < b.minute ∨ (a.minute = b.minute ∧
            a.second ≤ b.second)))))))))

/-- Radix bounds under which `dtKey` is an order embedding; every `Valid`
timestamp (hence every parsed one) satisfies them. -/
def DateTime.InRange (t : DateTime) : Prop :=
  t.month < 13 ∧ t.day < 32 ∧ t.hour < 24 ∧ t.minute < 60 ∧ t.second < 60

theorem DateTime.Valid.inRange {t : DateTime} (h : t.Valid) : t.InRange := by
  obtain ⟨-, -, -, h4, -, h6, h7, h8, h9⟩ := h
  have : daysInMonth t.year t.month ≤ 31 := by
    unfold daysInMonth; split_ifs <;> omega
  exact ⟨by omega, by omega, h7, h8, h9⟩

theorem dtKey_le_iff_chronLE {a b : DateTime} (ha : a.InRange) (hb : b.InRange) :
    dtKey a ≤ dtKey b ↔ a.chronLE b := by
  obtain ⟨ha1, ha2, ha3, ha4, ha5⟩ := ha
  obtain ⟨hb1, hb2, hb3, hb4, hb5⟩ := hb
  have ea : dtKey a = 35942400 * a.year + 2764800 * a.month + 86400 * a.day +
      3600 * a.hour + 60 * a.minute + a.second := by
    unfold dtKey; ring
  have eb : dtKey b = 35942400 * b.year + 2764800 * b.month + 86400 * b.day +
      3600 * b.hour + 60 * b.minute + b.second := by
    unfold dtKey; ring
  unfold DateTime.chronLE
  rw [ea, eb]
  omega

/-- Sort key relation of `data.sort(key=lambda x: x['timestamp'])`. -/
def tsLE (a b : Entry) : Prop := dtKey a.timestamp ≤ dtKey b.timestamp

instance : DecidableRel tsLE := fun a b => Nat.decLe _ _

instance : IsTotal Entry tsLE := ⟨fun a b => Nat.le_total _ _⟩

instance : IsTrans Entry tsLE := ⟨fun _ _ _ => Nat.le_trans⟩

/-- The per-line loop shared by `_parse_log_file` and
`_parse_compressed_log_file` (gzip being transparent, the two coincide in
the model): parse every line, keep an entry iff parsing succeeded and
`entry['timestamp'] >= cutoff_time`, in file order. -/
def parseLogLines (lines : List (List Char)) (cutoff : DateTime) : List Entry :=
  lines.filterMap fun l =>
    match parse_log_line l with
    | some e => if dtKey cutoff ≤ dtKey e.timestamp then some e else none
    | none => none

/-- The filename test of `_get_backup_files`:
`file.startswith('syslog_backup_') and (file.endswith('.txt') or
file.endswith('.gz'))`. -/
def isBackupName (n : List Char) : Bool :=
  "syslog_backup_".toList.isPrefixOf n &&
    (".txt".toList.isSuffixOf n || ".gz".toList.isSuffixOf n)

/-- Python string `<=`: lexicographic on code points. -/
def charListLe : List Char → List Char → Bool
  | [], _ => true
  | _ :: _, [] => false
  | a :: as, b :: bs => if a < b then true else if a = b then charListLe as bs else false

/-- Name order used by `sorted(backup_files)`. -/
def nameLE (a b : List Char) : Prop := charListLe a b = true

instance : DecidableRel nameLE := fun a b => instDecidableEqBool _ _

/-- `LogManager._get_backup_files(days)`: every directory entry whose name
matches the backup pattern and whose mtime is at or after the cutoff,
sorted by name.  `cutoffM` is `datetime.now() - timedelta(days=days)` as an
epoch second count. -/
def get_backup_files (fs : Fs) (cutoffM : Int) : List (List Char) :=
  List.insertionSort nameLE
    ((fs.filter fun f => isBackupName f.name && decide (cutoffM ≤ f.mtime)).map
      fun f => f.name)

/-- Opening a segment by name and parsing it; a missing file raises
`FileNotFoundError`, caught per file, contributing no entries. -/
def parseFileByName (fs : Fs) (n : List Char) (cutoff : DateTime) : List Entry :=
  match fs.lookup n with
  | none => []
  | some f => parseLogLines f.lines cutoff

/-- `LogManager.read_log_data(days)`: parse the active metrics segment when
present, `extend` with each backup file in `_get_backup_files` order
(compressed files going through the gzip reader, transparent here), then
sort ascending by timestamp (Python's stable sort).  `cutoff` is
`datetime.now() - timedelta(days=days)` as a timestamp, `cutoffM` the same
instant as epoch seconds. -/
def read_log_data (fs : Fs) (cutoff : DateTime) (cutoffM : Int) : List Entry :=
  List.insertionSort tsLE
    ((get_backup_files fs cutoffM).foldl
      (fun acc n => acc ++ parseFileByName fs n cutoff)
      (if (fs.lookup syslogName).isSome then parseFileByName fs syslogName cutoff
       else []))

/-! ## Specification-side enumeration for the window query -/

/-- The archived segments the read path consults: backup-named files whose
mtime is at or after the cutoff instant. -/
def qualifyingFiles (fs : Fs) (cutoffM : Int) : List FsFile :=
  fs.filter fun f => isBackupName f.name && decide (cutoffM ≤ f.mtime)

/-- File order by name. -/
def fileLE (a b : FsFile) : Prop := nameLE a.name b.name

instance : DecidableRel fileLE := fun a b => instDecidableEqBool _ _

/-- Spec-side enumeration of the in-window records, in file-enumeration
(active first, then archives by name) and in-file order. -/
def enumeratedRecords (fs : Fs) (cutoff : DateTime) (cutoffM : Int) : List Entry :=
  (match fs.lookup syslogName with
    | some f => parseLogLines f.lines cutoff
    | none => []) ++
  ((List.insertionSort fileLE (qualifyingFiles fs cutoffM)).map
    fun f => parseLogLines f.lines cutoff).flatten

/-- What claim C1 as stated promises: the same, but for every archived
segment regardless of its modification time. -/
def claimedRecords (fs : Fs) (cutoff : DateTime) : List Entry :=
  (match fs.lookup syslogName with
    | some f => parseLogLines f.lines cutoff
    | none => []) ++
  ((List.insertionSort fileLE (fs.filter fun f => isBackupName f.name)).map
    fun f => parseLogLines f.lines cutoff).flatten

theorem foldl_append_eq {α β : Type} (g : α → List β) :
    ∀ (names : List α) (init : List β),
      names.foldl (fun acc n => acc ++ g n) init = init ++ (names.map g).flatten
  | [], init => by simp
  | n :: ns, init => by
    simp only [List.foldl_cons, List.map_cons, List.flatten_cons]
    rw [foldl_append_eq g ns, List.append_assoc]

theorem orderedInsert_map {α β : Type} (f : α → β) (r : α → α → Prop)
    (r' : β → β → Prop) [DecidableRel r] [DecidableRel r']
    (hrr : ∀ a b, r a b ↔ r' (f a) (f b)) (a : α) (l : List α) :
    List.orderedInsert r' (f a) (l.map f) = (List.orderedInsert r a l).map f := by
  induction l with
  | nil => simp
  | cons b l ih =>
    simp only [List.map_cons, List.orderedInsert]
    by_cases h : r a b
    · rw [if_pos ((hrr a b).mp h), if_pos h, List.map_cons, List.map_cons]
    · rw [if_neg (fun h' => h ((hrr a b).mpr h')), if_neg h, List.map_cons, ih]

theorem insertionSort_map {α β : Type} (f : α → β) (r : α → α → Prop)
    (r' : β → β → Prop) [DecidableRel r] [DecidableRel r']
    (hrr : ∀ a b, r a b ↔ r' (f a) (f b)) (l : List α) :
    List.insertionSort r' (l.map f) = (List.insertionSort r l).map f := by
  induction l with
  | nil => simp
  | cons a l ih =>
    simp only [List.map_cons, List.insertionSort, ih,
      orderedInsert_map f r r' hrr]

/-- In a directory with distinct names, opening a listed file by its name
yields that file. -/
theorem lookup_of_nodup {fs : Fs} (hnd : (fs.map fun f => f.name).Nodup)
    {f : FsFile} (hf : f ∈ fs) : fs.lookup f.name = some f := by
  induction fs with
  | nil => cases hf
  | cons g fs ih =>
    rcases List.mem_cons.mp hf with rfl | hf
    · unfold Fs.lookup
      rw [List.find?_cons_of_pos _ (by simp)]
    · have hnd' := hnd
      rw [List.map_cons, List.nodup_cons] at hnd'
      have hne : g.name ≠ f.name := by
        intro he
        exact hnd'.1 (he ▸ List.mem_map_of_mem (fun x => x.name) hf)
      unfold Fs.lookup
      rw [List.find?_cons_of_neg _ (by simp [hne])]
      exact ih hnd'.2 hf

/-- `read_log_data` is the stable sort of the spec-side enumeration. -/
theorem read_log_data_eq (fs : Fs) (cutoff : DateTime) (cutoffM : Int)
    (hnd : (fs.map fun f => f.name).Nodup) :
    read_log_data fs cutoff cutoffM =
      List.insertionSort tsLE (enumeratedRecords fs cutoff cutoffM) := by
  unfold read_log_data enumeratedRecords
  rw [foldl_append_eq]
  congr 1
  congr 1
  · cases h : fs.lookup syslogName with
    | none => simp [parseFileByName, h]
    | some f => simp [parseFileByName, h]
  · unfold get_backup_files
    rw [insertionSort_map (fun f : FsFile => f.name) fileLE nameLE
      (fun _ _ => Iff.rfl)]
    rw [List.map_map]
    refine congrArg List.flatten (List.map_congr_left ?_)
    intro f hf
    have hf2 : f ∈ qualifyingFiles fs cutoffM :=
      (List.Perm.mem_iff (List.perm_insertionSort fileLE _)).mp hf
    have hf3 : f ∈ fs := List.mem_of_mem_filter hf2
    show parseFileByName fs f.name cutoff = parseLogLines f.lines cutoff
    unfold parseFileByName
    rw [lookup_of_nodup hnd hf3]

theorem parseDateTime_valid {l : List Char} {t : DateTime}
    (h : parseDateTime l = some t) : t.Valid := by
  unfold parseDateTime at h
  split at h
  · split_ifs at h with h1 h2
    · exact Option.some.inj h ▸ h2
  · exact Option.noConfusion h

theorem parse_log_line_timestamp_valid {l : List Char} {e : Entry}
    (h : parse_log_line l = some e) : e.timestamp.Valid := by
  unfold parse_log_line at h
  split at h
  · simp only [Option.pure_def, Option.bind_eq_bind, Option.bind_eq_some,
      Option.some.injEq] at h
    obtain ⟨ts, hts, c, hc, r, hr, d, hd, he⟩ := h
    rw [← he]
    exact parseDateTime_valid hts
  · exact Option.noConfusion h

theorem mem_parseLogLines {lines : List (List Char)} {cutoff : DateTime}
    {e : Entry} (h : e ∈ parseLogLines lines cutoff) :
    e.timestamp.Valid ∧ dtKey cutoff ≤ dtKey e.timestamp := by
  unfold parseLogLines at h
  rcases List.mem_filterMap.mp h with ⟨l, _, hfl⟩
  rcases hp : parse_log_line l with _ | e'
  · rw [hp] at hfl; exact absurd hfl (by simp)
  · rw [hp] at hfl
    simp only at hfl
    split_ifs at hfl with hcut
    · cases hfl
      exact ⟨parse_log_line_timestamp_valid hp, hcut⟩

theorem mem_enumeratedRecords {fs : Fs} {cutoff : DateTime} {cutoffM : Int}
    {e : Entry} (h : e ∈ enumeratedRecords fs cutoff cutoffM) :
    e.timestamp.Valid ∧ dtKey cutoff ≤ dtKey e.timestamp := by
  unfold enumeratedRecords at h
  rcases List.mem_append.mp h with h | h
  · rcases hl : fs.lookup syslogName with _ | f
    · rw [hl] at h; exact absurd h (by simp)
    · rw [hl] at h; exact mem_parseLogLines h
  · rcases List.mem_flatten.mp h with ⟨l, hl, hel⟩
    rcases List.mem_map.mp hl with ⟨f, _, rfl⟩
    exact mem_parseLogLines hel

/-- C1 (amended): with the window's fast filter on archive modification
times — as the Query Engine section of the specification itself describes
it — `read_log_data` is exactly the stable ascending-by-timestamp sort of
the in-window records of the active segment followed by the name-ordered
in-window archived segments: it returns those records each exactly once
(permutation), sorted ascending chronologically, with equal timestamps
preserving file-enumeration and in-file order (stable-sort sublist
preservation), and an empty input enumeration gives an empty result rather
than an error. -/
theorem C1_window_query (fs : Fs) (cutoff : DateTime) (cutoffM : Int)
    (hnd : (fs.map fun f => f.name).Nodup) :
    read_log_data fs cutoff cutoffM =
        List.insertionSort tsLE (enumeratedRecords fs cutoff cutoffM) ∧
    (read_log_data fs cutoff cutoffM).Perm (enumeratedRecords fs cutoff cutoffM) ∧
    (read_log_data fs cutoff cutoffM).Pairwise
      (fun a b => a.timestamp.chronLE b.timestamp) ∧
    (∀ a b : Entry, tsLE a b →
      List.Sublist [a, b] (enumeratedRecords fs cutoff cutoffM) →
      List.Sublist [a, b] (read_log_data fs cutoff cutoffM)) ∧
    (enumeratedRecords fs cutoff cutoffM = [] →
      read_log_data fs cutoff cutoffM = []) := by
  have heq := read_log_data_eq fs cutoff cutoffM hnd
  have hperm : (read_log_data fs cutoff cutoffM).Perm
      (enumeratedRecords fs cutoff cutoffM) := by
    rw [heq]; exact List.perm_insertionSort tsLE _
  refine ⟨heq, hperm, ?_, ?_, ?_⟩
  · rw [heq]
    have hs := List.sorted_insertionSort tsLE (enumeratedRecords fs cutoff cutoffM)
    refine hs.imp_of_mem ?_
    intro a b ha hb hab
    have hva := (mem_enumeratedRecords
      ((List.perm_insertionSort tsLE _).subset ha)).1
    have hvb := (mem_enumeratedRecords
      ((List.perm_insertionSort tsLE _).subset hb)).1
    exact (dtKey_le_iff_chronLE hva.inRange hvb.inRange).mp hab
  · intro a b hab hsub
    rw [heq]
    exact List.pair_sublist_insertionSort hab hsub
  · intro hnil
    rw [heq, hnil]
    rfl

/-! ### Concrete states for C1 -/

/-- Query cutoff instant used in the concrete window-query scenarios. -/
def cutoffC1 : DateTime := ⟨2023, 1, 1, 0, 0, 0⟩

/-- A record timestamp inside the window. -/
def tFuture : DateTime := ⟨2030, 1, 1, 0, 0, 0⟩

/-- An archive whose name says it was rotated long ago. -/
def bkOldName : List Char := "syslog_backup_20200101_000000.txt".toList

/-- A well-formed metrics line carrying the in-window timestamp. -/
def goodLineC1 : List Char := metricsLine (formatDateTime tFuture) 50 60 70

/-- One archived segment with an old mtime but an in-window record. -/
def fsC1 : Fs := [⟨bkOldName, [goodLineC1], 0⟩]

/-- A small two-segment directory with distinct names. -/
def fsW : Fs :=
  [⟨syslogName, [], 5⟩, ⟨"syslog_backup_20240101_000000.txt".toList, [], 5⟩]

/-- Closed witness for the amended window-query theorem on `fsW`. -/
theorem C1_window_query_witness :
    ((fsW.map fun f => f.name).Nodup) ∧
    (read_log_data fsW cutoffC1 0 =
        List.insertionSort tsLE (enumeratedRecords fsW cutoffC1 0) ∧
      (read_log_data fsW cutoffC1 0).Perm (enumeratedRecords fsW cutoffC1 0) ∧
      (read_log_data fsW cutoffC1 0).Pairwise
        (fun a b => a.timestamp.chronLE b.timestamp) ∧
      (∀ a b : Entry, tsLE a b →
        List.Sublist [a, b] (enumeratedRecords fsW cutoffC1 0) →
        List.Sublist [a, b] (read_log_data fsW cutoffC1 0)) ∧
      (enumeratedRecords fsW cutoffC1 0 = [] →
        read_log_data fsW cutoffC1 0 = [])) :=
  ⟨by decide, C1_window_query fsW cutoffC1 0 (by decide)⟩

/-- Counterexample to C1 as stated: the archived segment `fsC1` stores a
record whose timestamp (`tFuture`) is at or after the cutoff, so the claim
promises it in the output, but `read_log_data` skips the whole archive on
its mtime and returns nothing. -/
theorem C1_window_query_counterexample :
    dtKey cutoffC1 ≤ dtKey tFuture ∧
    claimedRecords fsC1 cutoffC1 =
      [⟨tFuture, fmt1Val 50, fmt1Val 60, fmt1Val 70⟩] ∧
    read_log_data fsC1 cutoffC1 100 = [] := by
  refine ⟨by decide, ?_, rfl⟩
  have hp : parse_log_line goodLineC1 =
      some ⟨tFuture, fmt1Val 50, fmt1Val 60, fmt1Val 70⟩ :=
    parse_metricsLine 50 60 70 (by decide)
  unfold claimedRecords
  have h0 : fsC1.lookup syslogName = none := rfl
  have h1 : fsC1.filter (fun f => isBackupName f.name) = fsC1 := rfl
  have h2 : List.insertionSort fileLE fsC1 = fsC1 := rfl
  rw [h0, h1, h2]
  show [] ++ (parseLogLines [goodLineC1] cutoffC1 ++ []) = _
  unfold parseLogLines
  simp only [List.filterMap_cons, List.filterMap_nil, hp]
  rw [if_pos (by decide)]
  simp

/-! ## Rotation triggers (C3) -/

/-- `timedelta.days >= max_age` is elapsed-seconds `>= max_age` days. -/
theorem age_days_iff (d maxAge : Int) :
    maxAge ≤ d.fdiv 86400 ↔ maxAge * 86400 ≤ d := by
  rw [Int.fdiv_eq_ediv _ (by omega)]
  exact Int.le_ediv_iff_mul_le (by omega)

/-- C3: `check_rotation` rotates the metrics log exactly when the active
segment exists and either its size strictly exceeds `max_size` bytes or its
age (now minus file mtime) is at least `max_age` days; either threshold
alone suffices, and when neither holds (or the segment is absent) the
state is left unchanged. -/
theorem C3_rotation_trigger (fs : Fs) (now : Int) (maxSize : Nat) (maxAge : Int)
    (ts : List Char) (okM okA : Bool) :
    (needs_rotation fs now maxSize maxAge = true ↔
      ∃ f, fs.lookup syslogName = some f ∧
        (f.size > maxSize ∨ maxAge * 86400 ≤ now - f.mtime)) ∧
    (needs_rotation fs now maxSize maxAge = true →
      check_rotation fs now maxSize maxAge ts okM okA =
        rotate_logs fs ts now okM okA) ∧
    (needs_rotation fs now maxSize maxAge = false →
      check_rotation fs now maxSize maxAge ts okM okA = fs) := by
  refine ⟨?_, ?_, ?_⟩
  · unfold needs_rotation
    cases hl : fs.lookup syslogName with
    | none => simp
    | some f =>
      simp only [Option.some.injEq]
      constructor
      · intro h
        refine ⟨f, rfl, ?_⟩
        split_ifs at h with h1 h2
        · exact Or.inl h1
        · exact Or.inr ((age_days_iff _ _).mp h2)
      · rintro ⟨g, rfl, hg⟩
        rcases hg with hg | hg
        · rw [if_pos hg]
        · split_ifs with h1 h2
          · rfl
          · rfl
          · exact absurd ((age_days_iff _ _).mpr hg) h2
  · intro h
    unfold check_rotation
    rw [h]
    rfl
  · intro h
    unfold check_rotation
    rw [h]
    rfl

/-- Rotation stamp used in the concrete rotation scenarios
(`now.strftime("%Y%m%d_%H%M%S")`). -/
def tsStamp : List Char := "20250101_120000".toList

/-- A six-byte log line. -/
def lineA : List Char := ['a', 'a', 'a', 'a', 'a', 'a']

/-- Another six-byte log line. -/
def lineB : List Char := ['b', 'b', 'b', 'b', 'b', 'b']

/-- An active metrics segment of 7 bytes. -/
def fsC3 : Fs := [⟨syslogName, [lineA], 0⟩]

/-- Closed witness for C3: with `max_size = 5` the 7-byte segment triggers,
and `check_rotation` performs the rotation. -/
theorem C3_rotation_trigger_witness :
    needs_rotation fsC3 0 5 3 = true ∧
    check_rotation fsC3 0 5 3 tsStamp true true = rotate_logs fsC3 tsStamp 0 true true :=
  ⟨by decide, (C3_rotation_trigger fsC3 0 5 3 tsStamp true true).2.1 (by decide)⟩

/-! ## Lookup helper lemmas -/

theorem lookup_none_of_forall {fs : Fs} {n : List Char}
    (h : ∀ f ∈ fs, f.name ≠ n) : fs.lookup n = none := by
  unfold Fs.lookup
  rw [List.find?_eq_none]
  intro f hf
  simp [h f hf]

theorem mem_remove {fs : Fs} {n : List Char} {f : FsFile}
    (h : f ∈ fs.remove n) : f ∈ fs ∧ f.name ≠ n := by
  unfold Fs.remove at h
  have := List.mem_filter.mp h
  exact ⟨this.1, by simpa using this.2⟩

theorem lookup_remove_of_ne {fs : Fs} {n m : List Char} (h : n ≠ m) :
    (fs.remove m).lookup n = fs.lookup n := by
  unfold Fs.remove Fs.lookup
  induction fs with
  | nil => rfl
  | cons f fs ih =>
    by_cases hf : f.name = m
    · have h1 : (f :: fs).filter (fun g => !(g.name == m)) =
          fs.filter (fun g => !(g.name == m)) := by
        simp [List.filter_cons, hf]
      rw [h1, ih, List.find?_cons_of_neg]
      simp only [beq_iff_eq, hf]
      exact fun he => h he.symm
    · have h1 : (f :: fs).filter (fun g => !(g.name == m)) =
          f :: fs.filter (fun g => !(g.name == m)) := by
        simp [List.filter_cons, hf]
      rw [h1]
      by_cases hfn : f.name = n
      · rw [List.find?_cons_of_pos _ (by simp [hfn]),
          List.find?_cons_of_pos _ (by simp [hfn])]
      · rw [List.find?_cons_of_neg _ (by simp [hfn]),
          List.find?_cons_of_neg _ (by simp [hfn])]
        exact ih

theorem lookup_remove_self (fs : Fs) (n : List Char) :
    (fs.remove n).lookup n = none := by
  apply lookup_none_of_forall
  intro f hf
  exact (mem_remove hf).2

theorem lookup_append (a b : Fs) (n : List Char) :
    (a ++ b).lookup n = (a.lookup n).or (b.lookup n) := by
  unfold Fs.lookup
  rw [List.find?_append]

/-- A name never equals itself with a suffix appended (length argument). -/
theorem name_ne_append_suffix (n s : List Char) (hs : s ≠ []) :
    n ++ s ≠ n := by
  intro h
  have := congrArg List.length h
  rw [List.length_append] at this
  have : s.length = 0 := by omega
  exact hs (List.length_eq_zero.mp this)

/-! ## No data loss on compression failure (C4) -/

/-- C4: if compression of a rotated archive fails, the uncompressed archive
still exists with its contents intact (the whole state is untouched);
and the uncompressed file is removed only after the compressed `.gz` has
been successfully written: in the success state the `.gz` holds the full
content and only then is the original gone. -/
theorem C4_compression_failure_keeps_file (fs : Fs) (n : List Char) (now : Int)
    (f : FsFile) (h : fs.lookup n = some f) :
    compress_file fs n false now = fs ∧
    (compress_file fs n false now).lookup n = some f ∧
    (compress_file fs n true now).lookup (n ++ ".gz".toList) =
      some ⟨n ++ ".gz".toList, f.lines, now⟩ ∧
    (compress_file fs n true now).lookup n = none := by
  have hne : n ++ ".gz".toList ≠ n := name_ne_append_suffix n _ (by decide)
  refine ⟨?_, ?_, ?_, ?_⟩
  · unfold compress_file
    rw [h]
    rfl
  · unfold compress_file
    rw [h]
    exact h
  · unfold compress_file
    rw [h]
    show (((fs.remove (n ++ ".gz".toList)) ++
      [(⟨n ++ ".gz".toList, f.lines, now⟩ : FsFile)]).remove n).lookup
        (n ++ ".gz".toList) = _
    rw [lookup_remove_of_ne hne, lookup_append, lookup_remove_self]
    unfold Fs.lookup
    rw [List.find?_cons_of_pos _ (by simp)]
    rfl
  · unfold compress_file
    rw [h]
    show (((fs.remove (n ++ ".gz".toList)) ++
      [(⟨n ++ ".gz".toList, f.lines, now⟩ : FsFile)]).remove n).lookup n = _
    exact lookup_remove_self _ _

/-- An uncompressed archive for the C4 witness. -/
def fsC4 : Fs := [⟨bkOldName, [lineA], 7⟩]

/-- Closed witness for C4 on a one-archive directory. -/
theorem C4_compression_failure_keeps_file_witness :
    fsC4.lookup bkOldName = some ⟨bkOldName, [lineA], 7⟩ ∧
    (compress_file fsC4 bkOldName false 9 = fsC4 ∧
      (compress_file fsC4 bkOldName false 9).lookup bkOldName =
        some ⟨bkOldName, [lineA], 7⟩ ∧
      (compress_file fsC4 bkOldName true 9).lookup (bkOldName ++ ".gz".toList) =
        some ⟨bkOldName ++ ".gz".toList, [lineA], 9⟩ ∧
      (compress_file fsC4 bkOldName true 9).lookup bkOldName = none) :=
  ⟨by decide, C4_compression_failure_keeps_file fsC4 bkOldName 9
    ⟨bkOldName, [lineA], 7⟩ (by decide)⟩

/-! ## Archive overwrite on same-second rotation (C2) -/

/-- The archive name both rotations in the scenario produce. -/
def bkStamped : List Char := "syslog_backup_".toList ++ tsStamp ++ ".txt".toList

/-- Its compressed form. -/
def bkStampedGz : List Char := bkStamped ++ ".gz".toList

/-- Initial state: one active metrics segment holding `lineA`. -/
def fsC2a : Fs := [⟨syslogName, [lineA], 0⟩]

/-- After the first rotation at stamp `tsStamp` and a fresh write of
`lineB` to a new active segment, still within the same wall-clock
second. -/
def fsC2b : Fs := (rotate_logs fsC2a tsStamp 10 true true).appendLine syslogName lineB 20

/-- After the second rotation, invoked in the same second (same stamp). -/
def fsC2c : Fs := rotate_logs fsC2b tsStamp 30 true true

/-- C2, divergence witness: rotation does rename the active segment to
`syslog_backup_<YYYYMMDD_HHMMSS>.txt` (second resolution) and archive it
as `.gz`; but when rotation runs twice within the same second the second
invocation silently overwrites the existing archive: afterwards the
archive holds only `lineB` and `lineA` has vanished from the entire
directory — the archived segment was modified after creation. -/
theorem C2_same_second_rotation_overwrites :
    (rotate_logs fsC2a tsStamp 10 true true).lookup bkStampedGz =
      some ⟨bkStampedGz, [lineA], 10⟩ ∧
    fsC2c.lookup bkStampedGz = some ⟨bkStampedGz, [lineB], 30⟩ ∧
    (∀ f ∈ fsC2c, f.lines ≠ [lineA]) := by
  decide

/-! ## Stream coupling under rotation (C6) -/

theorem mem_move_of_some {fs : Fs} {src dst : List Char} {f g : FsFile}
    (hg : fs.lookup src = some g) (h : f ∈ fs.move src dst) :
    (f ∈ fs ∧ f.name ≠ src ∧ f.name ≠ dst) ∨ f.name = dst := by
  unfold Fs.move at h
  rw [hg] at h
  rcases List.mem_append.mp h with h | h
  · obtain ⟨h1, hdst⟩ := mem_remove h
    obtain ⟨h2, hsrc⟩ := mem_remove h1
    exact Or.inl ⟨h2, hsrc, hdst⟩
  · simp at h
    subst h
    exact Or.inr rfl

theorem mem_compress {fs : Fs} {n : List Char} {ok : Bool} {now : Int}
    {f : FsFile} (h : f ∈ compress_file fs n ok now) :
    f ∈ fs ∨ f.name = n ++ ".gz".toList := by
  unfold compress_file at h
  cases hl : fs.lookup n with
  | none => rw [hl] at h; exact Or.inl h
  | some g =>
    rw [hl] at h
    split_ifs at h with hok
    · obtain ⟨h1, -⟩ := mem_remove h
      rcases List.mem_append.mp h1 with h2 | h2
      · exact Or.inl (mem_remove h2).1
      · simp at h2
        subst h2
        exact Or.inr rfl
    · exact Or.inl h

/-- After any `rotate_logs` call there is no active alerts segment: it is
archived whenever it existed, regardless of its own size or age. -/
theorem rotate_logs_clears_alerts (fs : Fs) (ts : List Char) (now : Int)
    (okM okA : Bool) :
    (rotate_logs fs ts now okM okA).lookup alertsName = none := by
  unfold rotate_logs
  generalize (if (fs.lookup syslogName).isSome then
      compress_file (fs.move syslogName ("syslog_backup_".toList ++ ts ++ ".txt".toList))
        ("syslog_backup_".toList ++ ts ++ ".txt".toList) okM now
    else fs) = fs1
  by_cases h : (fs1.lookup alertsName).isSome
  · rw [if_pos h]
    apply lookup_none_of_forall
    intro f hf
    have hdst : ("alerts_backup_".toList ++ ts ++ ".txt".toList) ≠ alertsName := by
      intro he
      have := congrArg List.length he
      simp only [List.length_append] at this
      have h14 : ("alerts_backup_".toList).length = 14 := rfl
      have h4 : (".txt".toList).length = 4 := rfl
      have h10 : (alertsName).length = 10 := rfl
      omega
    have hgz : (("alerts_backup_".toList ++ ts ++ ".txt".toList) ++ ".gz".toList)
        ≠ alertsName := by
      intro he
      have := congrArg List.length he
      simp only [List.length_append] at this
      have h14 : ("alerts_backup_".toList).length = 14 := rfl
      have h4 : (".txt".toList).length = 4 := rfl
      have h3 : (".gz".toList).length = 3 := rfl
      have h10 : (alertsName).length = 10 := rfl
      omega
    obtain ⟨g, hg⟩ := Option.isSome_iff_exists.mp h
    rcases mem_compress hf with hf1 | hf1
    · rcases mem_move_of_some hg hf1 with ⟨-, hsrc, -⟩ | hf2
      · exact hsrc
      · exact hf2 ▸ hdst
    · exact hf1 ▸ hgz
  · rw [if_neg h]
    exact Option.not_isSome_iff_eq_none.mp h

/-- C6 (amended): rotation state is *not* independent per stream.  Whether
rotation happens is determined by the metrics active segment alone
(`_needs_rotation` reads only `syslog.txt`), and when rotation runs it
archives the alerts active segment together with the metrics one, so
rotating the metrics stream does rotate the alerts stream; the alerts
segment's own size and age are never consulted. -/
theorem C6_rotation_not_independent (fs fs' : Fs) (now : Int) (maxSize : Nat)
    (maxAge : Int) (ts : List Char) (okM okA : Bool)
    (hsame : fs.lookup syslogName = fs'.lookup syslogName) :
    needs_rotation fs now maxSize maxAge = needs_rotation fs' now maxSize maxAge ∧
    (rotate_logs fs ts now okM okA).lookup alertsName = none := by
  constructor
  · unfold needs_rotation
    rw [hsame]
  · exact rotate_logs_clears_alerts fs ts now okM okA

/-- A fresh, tiny alerts segment next to an oversized metrics segment. -/
def fsC6 : Fs := [⟨syslogName, [lineA], 0⟩, ⟨alertsName, [['x']], 0⟩]

/-- Closed witness for the amended C6: adding an alerts segment does not
change `_needs_rotation`, and rotation leaves no active alerts segment. -/
theorem C6_rotation_not_independent_witness :
    fsC6.lookup syslogName = fsC3.lookup syslogName ∧
    (needs_rotation fsC6 0 5 3 = needs_rotation fsC3 0 5 3 ∧
      (rotate_logs fsC6 tsStamp 0 true true).lookup alertsName = none) :=
  ⟨by decide, C6_rotation_not_independent fsC6 fsC3 0 5 3 tsStamp true true (by decide)⟩

/-- Counterexample to C6 as stated: in `fsC6` the alerts segment is 2 bytes
(far below `max_size = 5`) and has age 0 days (below `max_age = 3`), yet
`check_rotation` — triggered purely by the metrics segment — archives
it: afterwards the active alerts segment is gone and an alerts archive
exists. -/
theorem C6_rotation_not_independent_counterexample :
    (∃ f, fsC6.lookup alertsName = some f ∧ f.size ≤ 5 ∧
      (0 - f.mtime).fdiv 86400 < 3) ∧
    (check_rotation fsC6 0 5 3 tsStamp true true).lookup alertsName = none ∧
    (check_rotation fsC6 0 5 3 tsStamp true true).lookup
      ("alerts_backup_".toList ++ tsStamp ++ ".txt.gz".toList) ≠ none := by
  refine ⟨⟨⟨alertsName, [['x']], 0⟩, by decide, by decide, by decide⟩, by decide, by decide⟩

/-! ## Alert threshold behaviour (C7) -/

/-- Record timestamps of the three-record scenario. -/
def t1C7 : DateTime := ⟨2023, 12, 1, 10, 0, 0⟩

/-- 10:01:00, the breaching tick. -/
def t2C7 : DateTime := ⟨2023, 12, 1, 10, 1, 0⟩

/-- 10:02:00. -/
def t3C7 : DateTime := ⟨2023, 12, 1, 10, 2, 0⟩

/-- The alerts state after the three ticks (cpu 45.2, 85.0, 50.0 against
threshold 80.0), the alert line being stamped with the record's own
instant as the wall clock. -/
def fsScenarioC7 : Fs :=
  check_alerts (some (mkMetricsDict t3C7 50 50 50)) 80
    (check_alerts (some (mkMetricsDict t2C7 85 50 50)) 80
      (check_alerts (some (mkMetricsDict t1C7 (226/5) 50 50)) 80 [] t1C7 1)
      t2C7 2)
    t3C7 3

/-- The single line the scenario writes. -/
def scenLineC7 : List Char :=
  formatDateTime t2C7 ++ ' ' :: '|' :: ' ' :: alertMessage 85 (formatDateTime t2C7)

/-- C7: `check_alerts` appends a line to the alerts stream iff the record's
`cpu_percent` strictly exceeds the threshold; the appended line embeds the
cpu value formatted to one decimal and the record's timestamp; a record at
or below the threshold appends nothing; and the three-record scenario with
cpu 45.2, 85.0, 50.0 against threshold 80.0 yields exactly one alert line,
the one referencing 85.0 and 10:01:00. -/
theorem C7_alert_threshold (d : MetricsDict) (c : ℚ) (ts : List Char)
    (threshold : ℚ) (fs : Fs) (nowDT : DateTime) (now : Int)
    (hc : d.cpu_percent = some (PyVal.num c)) (hts : d.timestamp = some ts) :
    (threshold < c →
      check_alerts (some d) threshold fs nowDT now =
        fs.appendLine alertsName
          (formatDateTime nowDT ++ ' ' :: '|' :: ' ' :: alertMessage c ts) now) ∧
    (¬ threshold < c → check_alerts (some d) threshold fs nowDT now = fs) ∧
    (fmt1 c).IsInfix (alertMessage c ts) ∧
    ts.IsInfix (alertMessage c ts) ∧
    fsScenarioC7 = [⟨alertsName, [scenLineC7], 2⟩] := by
  obtain ⟨dts, dc, dr, dd⟩ := d
  simp only at hc hts
  subst hc
  subst hts
  refine ⟨?_, ?_, ?_, ?_, ?_⟩
  · intro h
    dsimp only [check_alerts]
    rw [if_pos h]
    rfl
  · intro h
    dsimp only [check_alerts]
    rw [if_neg h]
  · exact ⟨"HIGH CPU USAGE ALERT: ".toList, "% at ".toList ++ ts, by
      unfold alertMessage; simp [List.append_assoc]⟩
  · exact ⟨"HIGH CPU USAGE ALERT: ".toList ++ fmt1 c ++ "% at ".toList, [], by
      unfold alertMessage; simp [List.append_assoc]⟩
  · unfold fsScenarioC7
    have h1 : check_alerts (some (mkMetricsDict t1C7 (226/5) 50 50)) 80 [] t1C7 1
        = [] := by
      dsimp only [check_alerts, mkMetricsDict]
      rw [if_neg (by norm_num)]
    rw [h1]
    have h2 : check_alerts (some (mkMetricsDict t2C7 85 50 50)) 80 [] t2C7 2 =
        [⟨alertsName, [scenLineC7], 2⟩] := by
      dsimp only [check_alerts, mkMetricsDict]
      rw [if_pos (by norm_num)]
      rfl
    rw [h2]
    dsimp only [check_alerts, mkMetricsDict]
    rw [if_neg (by norm_num)]

/-- Closed witness for C7 at the breaching record (cpu 85.0 at 10:01:00). -/
theorem C7_alert_threshold_witness :
    ((mkMetricsDict t2C7 85 50 50).cpu_percent = some (PyVal.num 85) ∧
      (mkMetricsDict t2C7 85 50 50).timestamp = some (formatDateTime t2C7)) ∧
    (((80 : ℚ) < 85 →
      check_alerts (some (mkMetricsDict t2C7 85 50 50)) 80 [] t2C7 2 =
        Fs.appendLine [] alertsName
          (formatDateTime t2C7 ++ ' ' :: '|' :: ' ' ::
            alertMessage 85 (formatDateTime t2C7)) 2) ∧
    (¬ (80 : ℚ) < 85 →
      check_alerts (some (mkMetricsDict t2C7 85 50 50)) 80 [] t2C7 2 = []) ∧
    (fmt1 85).IsInfix (alertMessage 85 (formatDateTime t2C7)) ∧
    (formatDateTime t2C7).IsInfix (alertMessage 85 (formatDateTime t2C7)) ∧
    fsScenarioC7 = [⟨alertsName, [scenLineC7], 2⟩]) :=
  ⟨⟨rfl, rfl⟩, C7_alert_threshold (mkMetricsDict t2C7 85 50 50) 85
    (formatDateTime t2C7) 80 [] t2C7 2 rfl rfl⟩

/-! ## Malformed line tolerance (C8) -/

theorem parse_log_line_not4 {line : List Char}
    (h : (splitSep line).length ≠ 4) : parse_log_line line = none := by
  unfold parse_log_line
  split
  · next heq => exact absurd (by rw [heq]; rfl) h
  · rfl

theorem parse_log_line_badts {line p0 p1 p2 p3 : List Char}
    (h : splitSep line = [p0, p1, p2, p3]) (hts : parseDateTime p0 = none) :
    parse_log_line line = none := by
  unfold parse_log_line
  rw [h]
  show (do
    let ts ← parseDateTime p0
    let cpu ← parseFloat (replaceEmpty '%' [] (replaceEmpty 'C' ['P', 'U', ':', ' '] p1))
    let ram ← parseFloat (replaceEmpty '%' [] (replaceEmpty 'R' ['A', 'M', ':', ' '] p2))
    let disk ← parseFloat (replaceEmpty '%' [] (replaceEmpty 'D' ['i', 's', 'k', ':', ' '] p3))
    some (⟨ts, cpu, ram, disk⟩ : Entry)) = none
  rw [hts]
  rfl

/-- A garbage line with no `" | "` (indeed no pipe at all). -/
def garbageLine : List Char := "this is not a log line".toList

/-- A line with exactly four fields whose first is no timestamp. -/
def badTsLine : List Char :=
  ['n', 'o', 'p', 'e'] ++ ' ' :: '|' :: ' ' ::
    (['a'] ++ ' ' :: '|' :: ' ' :: (['b'] ++ ' ' :: '|' :: ' ' :: ['c']))

/-- A well-formed line for the mixed segment. -/
def goodLineC8 : List Char := metricsLine (formatDateTime t1C7) 40 40 40

/-- A segment holding one well-formed and one garbage line. -/
def fsC8 : Fs := [⟨syslogName, [goodLineC8, garbageLine], 50⟩]

/-- C8: a line that does not split into exactly 4 fields on `" | "`, or
whose first field fails to parse as a `"%Y-%m-%d %H:%M:%S"` timestamp, is
discarded with no error; consequently the segment with one well-formed and
one garbage line yields exactly one parsed record from the read path. -/
theorem C8_malformed_line_discarded :
    (∀ line : List Char, (splitSep line).length ≠ 4 →
      parse_log_line line = none) ∧
    (∀ line p0 p1 p2 p3 : List Char, splitSep line = [p0, p1, p2, p3] →
      parseDateTime p0 = none → parse_log_line line = none) ∧
    read_log_data fsC8 cutoffC1 0 =
      [⟨t1C7, fmt1Val 40, fmt1Val 40, fmt1Val 40⟩] := by
  refine ⟨fun line h => parse_log_line_not4 h,
    fun line p0 p1 p2 p3 h hts => parse_log_line_badts h hts, ?_⟩
  have hgood : parse_log_line goodLineC8 =
      some ⟨t1C7, fmt1Val 40, fmt1Val 40, fmt1Val 40⟩ :=
    parse_metricsLine 40 40 40 (by decide)
  have hbad : parse_log_line garbageLine = none :=
    parse_log_line_not4 (by rw [splitSep_no_bar (by decide)]; simp)
  unfold read_log_data
  have hb : get_backup_files fsC8 0 = [] := rfl
  rw [hb]
  have hl : fsC8.lookup syslogName = some ⟨syslogName, [goodLineC8, garbageLine], 50⟩ :=
    rfl
  simp only [List.foldl_nil, hl, Option.isSome_some, if_true]
  show List.insertionSort tsLE
    (parseLogLines [goodLineC8, garbageLine] cutoffC1) = _
  unfold parseLogLines
  simp only [List.filterMap_cons, List.filterMap_nil, hgood, hbad]
  rw [if_pos (by decide)]
  rfl

/-- Closed witness for C8: the garbage line (one field) and the
four-field line with a bad timestamp are both discarded. -/
theorem C8_malformed_line_discarded_witness :
    ((splitSep garbageLine).length ≠ 4 ∧
      splitSep badTsLine = [['n', 'o', 'p', 'e'], ['a'], ['b'], ['c']] ∧
      parseDateTime ['n', 'o', 'p', 'e'] = none) ∧
    parse_log_line garbageLine = none ∧
    parse_log_line badTsLine = none := by
  have hg : splitSep garbageLine = [garbageLine] := splitSep_no_bar (by decide)
  have hglen : (splitSep garbageLine).length ≠ 4 := by rw [hg]; simp
  have hb : splitSep badTsLine = [['n', 'o', 'p', 'e'], ['a'], ['b'], ['c']] := by
    unfold badTsLine
    rw [splitSep_append _ (by decide), splitSep_append _ (by decide),
      splitSep_append _ (by decide), splitSep_no_bar (by decide)]
  exact ⟨⟨hglen, hb, rfl⟩,
    C8_malformed_line_discarded.1 garbageLine hglen,
    C8_malformed_line_discarded.2.1 badTsLine _ _ _ _ hb rfl⟩

/-! ## `None` metrics are a no-op tick (C9) -/

/-- C9: when the sampler returns no data, both `log_metrics` and
`check_alerts` leave the filesystem (every log file) unchanged and raise
nothing — both are total functions returning the input state. -/
theorem C9_none_is_noop (fs : Fs) (threshold : ℚ) (nowDT : DateTime) (now : Int) :
    log_metrics none fs now = fs ∧
    check_alerts none threshold fs nowDT now = fs :=
  ⟨rfl, rfl⟩

/-! ## Serialization failure leaves the segment untouched (C10) -/

/-- C10: the `log_entry` f-string fails exactly when a required key is
missing or a percent field is not a number, and in that case — the line
being fully constructed before the file is opened — `log_metrics` leaves
the state entirely unchanged and the error is swallowed. -/
theorem C10_serialization_failure_no_write (d : MetricsDict) (fs : Fs) (now : Int) :
    (buildLogEntry d = none ↔
      d.timestamp = none ∨ d.cpu_percent = none ∨ d.memory_percent = none ∨
      d.disk_percent = none ∨ (∃ s, d.cpu_percent = some (PyVal.str s)) ∨
      (∃ s, d.memory_percent = some (PyVal.str s)) ∨
      (∃ s, d.disk_percent = some (PyVal.str s))) ∧
    (buildLogEntry d = none → log_metrics (some d) fs now = fs) := by
  constructor
  · obtain ⟨ts, c, r, di⟩ := d
    rcases ts with _ | ts <;> rcases c with _ | (q | s) <;>
      rcases r with _ | (q' | s') <;> rcases di with _ | (q'' | s'') <;>
      simp [buildLogEntry, PyVal.asNum]
  · intro h
    dsimp only [log_metrics]
    rw [h]

/-- Closed witness for C10: a dict missing `cpu_percent` writes nothing. -/
theorem C10_serialization_failure_no_write_witness :
    (buildLogEntry ⟨some (formatDateTime t1C7), none,
        some (PyVal.num 50), some (PyVal.num 50)⟩ = none ↔
      (⟨some (formatDateTime t1C7), none, some (PyVal.num 50),
        some (PyVal.num 50)⟩ : MetricsDict).timestamp = none ∨
      (⟨some (formatDateTime t1C7), none, some (PyVal.num 50),
        some (PyVal.num 50)⟩ : MetricsDict).cpu_percent = none ∨
      (⟨some (formatDateTime t1C7), none, some (PyVal.num 50),
        some (PyVal.num 50)⟩ : MetricsDict).memory_percent = none ∨
      (⟨some (formatDateTime t1C7), none, some (PyVal.num 50),
        some (PyVal.num 50)⟩ : MetricsDict).disk_percent = none ∨
      (∃ s, (⟨some (formatDateTime t1C7), none, some (PyVal.num 50),
        some (PyVal.num 50)⟩ : MetricsDict).cpu_percent = some (PyVal.str s)) ∨
      (∃ s, (⟨some (formatDateTime t1C7), none, some (PyVal.num 50),
        some (PyVal.num 50)⟩ : MetricsDict).memory_percent = some (PyVal.str s)) ∨
      (∃ s, (⟨some (formatDateTime t1C7), none, some (PyVal.num 50),
        some (PyVal.num 50)⟩ : MetricsDict).disk_percent = some (PyVal.str s))) ∧
    (buildLogEntry ⟨some (formatDateTime t1C7), none,
        some (PyVal.num 50), some (PyVal.num 50)⟩ = none →
      log_metrics (some ⟨some (formatDateTime t1C7), none,
        some (PyVal.num 50), some (PyVal.num 50)⟩) fsC8 3 = fsC8) :=
  C10_serialization_failure_no_write
    ⟨some (formatDateTime t1C7), none, some (PyVal.num 50), some (PyVal.num 50)⟩
    fsC8 3

end SysTracker
